import Mathlib

/-!
Verification of the corner text-overlay renderer
(`src/0-render-scripts/script93-left.py`).

The script is embedded shallowly: Python integers become `ℤ`/`ℕ`, Python
floats become exact rationals `ℚ` (the configured constants `0.98` and `1.5`
are modelled by the rationals they denote; every value the claims mention is
far from a representation boundary), Python strings become `String`.
Per-frame fallible work is modelled with `Except`.  Font objects are modelled
by the two metrics the layout code reads from them (`_text_size` width and
`_line_height`).
-/

namespace Script93

/-- Python 3 `round` on an exact rational: round half to even
(banker's rounding), as used by `int(round(x))` in the script.  With
`f = floor q` and `r = q.num - f * q.den`, the fractional part of `q` is
`r / q.den`, so `frac < 1/2` is `2r < den`, `frac > 1/2` is `2r > den`,
and the tie goes to whichever of `f`, `f + 1` is even. -/
def pyRound (q : ℚ) : ℤ :=
  let f : ℤ := q.floor
  let r : ℤ := q.num - f * q.den
  if 2 * r < q.den then f
  else if (q.den : ℤ) < 2 * r then f + 1
  else if Int.fmod f 2 = 0 then f else f + 1

/-- Decimal digits of a natural number, most significant first; `fuel`
structural recursion in the style of core `Nat.toDigitsCore` so that concrete
values reduce in the kernel.  Models Python `str` on a nonnegative int. -/
def decDigitsCore : Nat → Nat → List Char
  | 0, _ => []
  | fuel + 1, n =>
    if n < 10 then [Nat.digitChar n]
    else decDigitsCore fuel (n / 10) ++ [Nat.digitChar (n % 10)]

/-- Python `str` of a natural number. -/
def pyStrNat (n : Nat) : String := ⟨decDigitsCore (n + 1) n⟩

/-- Python `str` of an int (sign handled as Python does). -/
def pyStrInt : ℤ → String
  | Int.ofNat n => pyStrNat n
  | Int.negSucc n => "-" ++ pyStrNat (n + 1)

/-- Python `str.zfill` on the character list: left-pad with `'0'` to width
`w`, inserting the zeros after a leading sign character when one is
present. -/
def zfillData (l : List Char) (w : Nat) : List Char :=
  if w ≤ l.length then l
  else
    match l with
    | [] => List.replicate w '0'
    | c :: rest =>
      if c = '+' ∨ c = '-' then c :: (List.replicate (w - l.length) '0' ++ rest)
      else List.replicate (w - l.length) '0' ++ l

/-- Python `str.zfill`. -/
def zfill (s : String) (w : Nat) : String := ⟨zfillData s.data w⟩

/-- Python `str.replace` specialised to a one-character pattern (every
pattern the script uses — the frame token, the total token, `"X"`, `"Y"` —
is a single character): each occurrence of `c` expands to `repl`. -/
def replaceChar (s : String) (c : Char) (repl : String) : String :=
  ⟨s.data.foldr (fun ch acc => if ch = c then repl.data ++ acc else ch :: acc) []⟩

/-- Python `str.lstrip()` (no argument): drop leading whitespace.
`Char.isWhitespace` covers the whitespace characters appearing anywhere in
the script's data (space/tab/newlines). -/
def pyLstrip (s : String) : String := ⟨s.data.dropWhile Char.isWhitespace⟩

/-- Python `str.strip()`: drop whitespace at both ends. -/
def pyStrip (s : String) : String :=
  ⟨(((s.data.dropWhile Char.isWhitespace).reverse.dropWhile Char.isWhitespace).reverse)⟩

/-- Python `t[1:]`: drop the first character. -/
def pyTail (s : String) : String := ⟨s.data.tail⟩

/-- Python `t.startswith("!")`. -/
def startsWithBang (s : String) : Bool :=
  match s.data with
  | '!' :: _ => true
  | [] => false
  | _ :: _ => false

/-- Exact product of two rationals, expressed through `Rat.divInt` so that it
reduces in the kernel (`Rat.mul` is irreducible); `ratMul_eq` below shows it
is the ordinary multiplication.  Models Python float multiplication on the
exact rationals of this development. -/
def ratMul (a b : ℚ) : ℚ := Rat.divInt (a.num * b.num) ((a.den : ℤ) * (b.den : ℤ))

/-! ## Configuration constants (lines 37-104 of the script) -/

/-- `LINE_SPACING = 1`. -/
def LINE_SPACING : ℤ := 1

/-- `BIG = 1.5`: scale factor for lines starting with `"!"`. -/
def BIG : ℚ := Rat.divInt 3 2

/-- `HOURS_PER_FRAME = 0.98` (the `v11` assignment on line 44 overwrites the
`1.31` on line 43). -/
def HOURS_PER_FRAME : ℚ := Rat.divInt 49 50

/-- Python `f"{x:.1f}"` for a nonnegative value: round `10·x` half-to-even
and print one decimal digit. -/
def format1f (q : ℚ) : String :=
  let n : ℤ := pyRound (ratMul q (Rat.ofInt 10))
  pyStrInt (Int.fdiv n 10) ++ "." ++ pyStrInt (Int.fmod n 10)

/-- `TIME_LABEL_TEMPLATE = f"Time Estimate ({HOURS_PER_FRAME:.1f} hr/frame): X dd Y hr"`. -/
def TIME_LABEL_TEMPLATE : String :=
  "Time Estimate (" ++ format1f HOURS_PER_FRAME ++ " hr/frame): X dd Y hr"

/-! ## Elapsed-time label (`build_time_label`, lines 147-161) and the
global pad widths computed in `main` (lines 280-287) -/

/-- `elapsed_hours_float = (frame_index - 1) * HOURS_PER_FRAME`. -/
def elapsedFloat (frame_index : ℕ) : ℚ :=
  ratMul (Rat.ofInt ((frame_index : ℤ) - 1)) HOURS_PER_FRAME

/-- `elapsed_hours_display = int(round(elapsed_hours_float))`. -/
def elapsedDisplay (frame_index : ℕ) : ℤ := pyRound (elapsedFloat frame_index)

/-- `days = elapsed_hours_display // 24` (Python floor division). -/
def daysOf (frame_index : ℕ) : ℤ := Int.fdiv (elapsedDisplay frame_index) 24

/-- `hours = elapsed_hours_display % 24` (Python modulo). -/
def hoursOf (frame_index : ℕ) : ℤ := Int.fmod (elapsedDisplay frame_index) 24

/-- `day_str = str(days).zfill(pad_days)`. -/
def dayField (frame_index pad : ℕ) : String := zfill (pyStrInt (daysOf frame_index)) pad

/-- `hour_str = str(hours).zfill(pad_hours)`. -/
def hourField (frame_index pad : ℕ) : String := zfill (pyStrInt (hoursOf frame_index)) pad

/-- `build_time_label`: substitute the day and hour fields into the fixed
template (`str.replace` with the one-character patterns `"X"`, `"Y"`). -/
def build_time_label (frame_index pad_days pad_hours : ℕ) : String :=
  replaceChar (replaceChar TIME_LABEL_TEMPLATE 'X' (dayField frame_index pad_days))
    'Y' (hourField frame_index pad_hours)

/-- `pad_days = max(len(str(max_days)), 1)` where `max_days` is the day count
of the last frame (`main`, lines 281-285). -/
def pad_days_of (total : ℕ) : ℕ := max (pyStrInt (daysOf total)).length 1

/-- `pad_hours = max(len(str(max_hours)), 1)` (`main`, line 286) — computed
and then immediately overwritten, see `pad_hours_of`. -/
def pad_hours_computed (total : ℕ) : ℕ := max (pyStrInt (hoursOf total)).length 1

/-- The hour pad width the script actually uses: `pad_hours = 2`
(`main`, line 287 overwrites the computed value). -/
def pad_hours_of (_total : ℕ) : ℕ := 2

/-- Stated from the claim's words, for comparison with `pad_hours_of`:
"the hour width from the digit count of the last frame's hour remainder". -/
def pad_hours_claimed (total : ℕ) : ℕ := (pyStrInt (hoursOf total)).length

/-! ## Frame-index token substitution (`main`, lines 266 and 292-295) -/

/-- `pad_width = len(str(total))`. -/
def pad_width_of (total : ℕ) : ℕ := (pyStrNat total).length

/-- `frame_str = str(idx).zfill(pad_width)`. -/
def frame_str (idx total : ℕ) : String := zfill (pyStrNat idx) (pad_width_of total)

/-- `replace_tokens`: substitute the frame token (the backquote character,
code point 96) with `frame_str` and the caret with `str(total)`. -/
def replace_tokens (idx total : ℕ) (s : String) : String :=
  replaceChar (replaceChar s (Char.ofNat 96) (frame_str idx total)) '^' (pyStrNat total)

/-! ## Label processing (`process_label`, lines 297-315, and
`_normalize_texts`, lines 128-145) -/

/-- One resolved line: final text plus the emphasis flag. -/
structure RenderedLine where
  text : String
  big : Bool
deriving Repr, DecidableEq

/-- The text resolution shared by both branches of `process_label`: the
`"TIME"` sentinel becomes the elapsed-time label, anything else gets token
substitution. -/
def resolveText (idx total pad_days pad_hours : ℕ) (t : String) : String :=
  if t = "TIME" then build_time_label idx pad_days pad_hours
  else replace_tokens idx total t

/-- `process_label`'s per-line body: detect the leading `"!"`, strip it and
any whitespace following it, then resolve the remaining text. -/
def processLabelLine (idx total pad_days pad_hours : ℕ) (t : String) : RenderedLine :=
  let is_big := startsWithBang t
  let t2 := if is_big then pyLstrip (pyTail t) else t
  ⟨resolveText idx total pad_days pad_hours t2, is_big⟩

/-- `_normalize_texts` on a list label: strip each entry, drop blanks. -/
def normalize_texts (label : List String) : List String :=
  (label.map pyStrip).filter (fun s => s ≠ "")

/-- `process_label` on a list label. -/
def process_label (idx total pad_days pad_hours : ℕ) (label : List String) : List RenderedLine :=
  (normalize_texts label).map (processLabelLine idx total pad_days pad_hours)

/-! ## Fonts (`load_font` sizes, `main` lines 268-278) -/

/-- The point size passed to `load_font` for a corner's big font:
`int(round(FONT_SIZE * BIG))` (lines 275-278). -/
def bigFontSize (base : ℤ) : ℤ := pyRound (ratMul (Rat.ofInt base) BIG)

/-- The point size of the font a line is rendered with: the corner's big
font for an emphasised line, its base font otherwise (the
`tl["font_big"] if item.get("big") else tl["font"]` selection combined with
the sizes `main` loads those two fonts at). -/
def fontSizeFor (base : ℤ) (line : RenderedLine) : ℤ :=
  if line.big then bigFontSize base else base

/-! ## Corner layout (`add_text_overlays`, lines 163-245)

A font is modelled by the two metrics the layout reads from it:
`_text_size(font, text)[0]` (the measured width of a string) and
`_line_height(font)` (ascent + descent). -/

/-- Abstract font: measured text width and line height. -/
structure Font where
  width : String → ℤ
  height : ℤ

/-- One corner's argument dict: resolved lines, base and big fonts, and the
offsets from that corner's edges (the color plays no part in geometry). -/
structure CornerCfg where
  lines : List RenderedLine
  font : Font
  font_big : Font
  offset_x : ℤ
  offset_y : ℤ

/-- `tl["font_big"] if item.get("big") else tl["font"]`. -/
def fontFor (cfg : CornerCfg) (item : RenderedLine) : Font :=
  if item.big then cfg.font_big else cfg.font

/-- One `draw.text((x, y), text, font=font, ...)` call. -/
structure DrawCall where
  x : ℤ
  y : ℤ
  text : String
  font : Font

/-- The left-aligned column loop (top-left, lines 182-190, and bottom-left,
lines 215-222): fixed `x`, cursor `y` advanced by line height plus spacing. -/
def drawColumnLeft (cfg : CornerCfg) (spacing x : ℤ) : ℤ → List RenderedLine → List DrawCall
  | _, [] => []
  | y, item :: rest =>
    let font := fontFor cfg item
    ⟨x, y, item.text, font⟩ ::
      drawColumnLeft cfg spacing x (y + font.height + spacing) rest

/-- The right-aligned column loop (top-right, lines 193-202, and
bottom-right, lines 236-243): per line, `x = W - tw - offset_x` with `tw`
the measured width of that line in its font. -/
def drawColumnRight (cfg : CornerCfg) (spacing W : ℤ) : ℤ → List RenderedLine → List DrawCall
  | _, [] => []
  | y, item :: rest =>
    let font := fontFor cfg item
    let tw := font.width item.text
    ⟨W - tw - cfg.offset_x, y, item.text, font⟩ ::
      drawColumnRight cfg spacing W (y + font.height + spacing) rest

/-- The bottom corners' pre-pass (lines 206-213 and 227-233): total stacked
height — every line's own font height, plus spacing between consecutive
lines (`if i < len(lines) - 1: total_h += line_spacing`). -/
def stackedHeightOf (spacing : ℤ) : List ℤ → ℤ
  | [] => 0
  | [h] => h
  | h :: h2 :: rest => h + spacing + stackedHeightOf spacing (h2 :: rest)

/-- The per-line font heights of a corner's lines. -/
def heightsOf (cfg : CornerCfg) : List ℤ :=
  cfg.lines.map (fun item => (fontFor cfg item).height)

/-- `stackedHeightOf` applied to a corner (the `total_h` of the code). -/
def stackedHeight (spacing : ℤ) (cfg : CornerCfg) : ℤ :=
  stackedHeightOf spacing (heightsOf cfg)

/-- Top-left block draw calls. -/
def tlDraws (spacing : ℤ) (cfg : CornerCfg) : List DrawCall :=
  drawColumnLeft cfg spacing cfg.offset_x cfg.offset_y cfg.lines

/-- Top-right block draw calls (`W` is the image width). -/
def trDraws (W spacing : ℤ) (cfg : CornerCfg) : List DrawCall :=
  drawColumnRight cfg spacing W cfg.offset_y cfg.lines

/-- Bottom-left block draw calls (`H` is the image height): the first line
is placed at `H - offset_y - total_h`. -/
def blDraws (H spacing : ℤ) (cfg : CornerCfg) : List DrawCall :=
  drawColumnLeft cfg spacing cfg.offset_x (H - cfg.offset_y - stackedHeight spacing cfg) cfg.lines

/-- Bottom-right block draw calls. -/
def brDraws (W H spacing : ℤ) (cfg : CornerCfg) : List DrawCall :=
  drawColumnRight cfg spacing W (H - cfg.offset_y - stackedHeight spacing cfg) cfg.lines

/-! ## `main`'s pre-flight checks (lines 252-264) and per-frame loop
(lines 289-371) -/

/-- What `main` observes about its input path before the loop. -/
structure InputDir where
  name : String
  present : Bool
  isDir : Bool
  pngs : List String

/-- The outcome of the pre-flight section of `main`. -/
inductive MainOutcome where
  | exits (code : ℕ) (msg : String) (outDirCreated : Bool)
  | runs (total : ℕ)
deriving Repr, DecidableEq

/-- Lines 252-264 of `main`: missing path or non-directory exits 1 with one
diagnostic before the output directory is created; a valid directory with
zero PNGs exits 0 with an informational message after `out_dir.mkdir`; any
other directory proceeds to the loop (with the output directory created). -/
def preflight (d : InputDir) : MainOutcome :=
  if ¬ (d.present ∧ d.isDir) then
    .exits 1 ("[error] \x22" ++ d.name ++ "\x22 is not a directory.") false
  else if d.pngs.length = 0 then
    .exits 0 "[info] No PNGs found." true
  else
    .runs d.pngs.length

/-- One iteration of the per-frame loop (lines 289-369): the whole `try`
body either succeeds — producing the progress line — or raises, in which
case the `except` arm produces the one-line diagnostic.  `ok` abstracts
whether the imaging library can decode/encode the file. -/
def processOne (ok : String → Bool) (idx total : ℕ) (src : String) : Except String String :=
  if ok src then .ok ("[" ++ pyStrNat idx ++ "/" ++ pyStrNat total ++ "] " ++ src)
  else .error ("[error] Failed on " ++ src)

/-- The `for idx, src in enumerate(pngs, 1)` loop: every file is visited
exactly once, in order, and a failure only affects its own entry. -/
def runBatch (ok : String → Bool) (total : ℕ) : ℕ → List String → List (ℕ × Except String String)
  | _, [] => []
  | idx, src :: rest =>
    (idx, processOne ok idx total src) :: runBatch ok total (idx + 1) rest

/-- Number of files actually written: the iterations whose `try` body
completed (reached `result.save`). -/
def writtenCount (rs : List (ℕ × Except String String)) : ℕ :=
  rs.countP (fun r => match r.2 with | .ok _ => true | .error _ => false)

/-- The final summary line (line 371): `f"[done] Wrote {total} files to {out_dir}"`. -/
def summaryLine (total : ℕ) (out_dir : String) : String :=
  "[done] Wrote " ++ pyStrNat total ++ " files to " ++ out_dir

/-- The bottom edge of a rendered column: the last draw call's `y` plus the
line height of the font it was drawn with. -/
def bottomEdge (draws : List DrawCall) : Option ℤ :=
  draws.getLast?.map (fun d => d.y + d.font.height)

/-- A concrete font for instantiating the layout theorems: width is the
character count, line height 10. -/
def sampleFont : Font := ⟨fun s => (s.length : ℤ), 10⟩

/-- A concrete big font: twice the character count wide, line height 15. -/
def sampleFontBig : Font := ⟨fun s => 2 * (s.length : ℤ), 15⟩

/-- A concrete corner configuration with one base line and one big line. -/
def sampleCorner : CornerCfg :=
  { lines := [⟨"ab", false⟩, ⟨"cde", true⟩]
    font := sampleFont
    font_big := sampleFontBig
    offset_x := 15
    offset_y := 10 }

/-! ## Helper lemmas -/

@[simp] theorem length_mk (l : List Char) : (String.mk l).length = l.length := rfl

/-- `ratMul` is ordinary rational multiplication (it is phrased through
`Rat.divInt` only so that the kernel can evaluate it). -/
theorem ratMul_eq (a b : ℚ) : ratMul a b = a * b := by
  rw [ratMul, Rat.divInt_eq_div]
  push_cast
  rw [← div_mul_div_comm, Rat.num_div_den, Rat.num_div_den]

/-- `zfillData` always produces a list of length `max l.length w`. -/
theorem zfillData_length (l : List Char) (w : ℕ) : (zfillData l w).length = max l.length w := by
  cases l with
  | nil =>
    unfold zfillData
    split
    · simp only [List.length_nil] at *; omega
    · simp only [List.length_replicate, List.length_nil]; omega
  | cons c rest =>
    by_cases hw : w ≤ (c :: rest).length
    · unfold zfillData
      rw [if_pos hw]
      simp only [List.length_cons] at *
      omega
    · unfold zfillData
      rw [if_neg hw]
      show (if c = '+' ∨ c = '-' then c :: (List.replicate (w - (c :: rest).length) '0' ++ rest)
        else List.replicate (w - (c :: rest).length) '0' ++ (c :: rest)).length
        = max (c :: rest).length w
      by_cases hc : c = '+' ∨ c = '-'
      · rw [if_pos hc]
        simp only [List.length_cons, List.length_append, List.length_replicate] at *
        omega
      · rw [if_neg hc]
        simp only [List.length_cons, List.length_append, List.length_replicate] at *
        omega

/-- `zfill` always produces a string of width `max s.length w`. -/
theorem zfill_length (s : String) (w : ℕ) : (zfill s w).length = max s.length w := by
  obtain ⟨l⟩ := s
  show (zfillData l w).length = max l.length w
  exact zfillData_length l w

/-- `decDigitsCore` does not depend on the fuel once the fuel exceeds the
number. -/
theorem decDigitsCore_fuel : ∀ (f g n : ℕ), n < f → n < g → decDigitsCore f n = decDigitsCore g n := by
  intro f
  induction f with
  | zero => intro g n hf _; omega
  | succ f ih =>
    intro g n hf hg
    cases g with
    | zero => omega
    | succ g =>
      unfold decDigitsCore
      by_cases h : n < 10
      · simp [h]
      · simp only [if_neg h]
        have hd : n / 10 < n := Nat.div_lt_self (by omega) (by omega)
        rw [ih g (n / 10) (by omega) (by omega)]

/-- One decimal digit for a small number. -/
theorem pyStrNat_length_lt10 (n : ℕ) (h : n < 10) : (pyStrNat n).length = 1 := by
  unfold pyStrNat decDigitsCore
  simp [h]

/-- The digit count recurrence for `10 ≤ n`. -/
theorem pyStrNat_length_ge10 (n : ℕ) (h : 10 ≤ n) :
    (pyStrNat n).length = (pyStrNat (n / 10)).length + 1 := by
  have hd : n / 10 < n := Nat.div_lt_self (by omega) (by omega)
  unfold pyStrNat
  rw [show n + 1 = (n) + 1 from rfl]
  unfold decDigitsCore
  simp only [if_neg (by omega : ¬ n < 10), length_mk, List.length_append, List.length_cons,
    List.length_nil]
  rw [decDigitsCore_fuel n (n / 10 + 1) (n / 10) (by omega) (by omega)]
  rfl

/-- Decimal digit count is monotone. -/
theorem pyStrNat_length_mono : ∀ (n i : ℕ), i ≤ n → (pyStrNat i).length ≤ (pyStrNat n).length := by
  intro n
  induction n using Nat.strong_induction_on with
  | _ n ih =>
    intro i hin
    by_cases hn : n < 10
    · rw [pyStrNat_length_lt10 n hn, pyStrNat_length_lt10 i (by omega)]
    · by_cases hi : i < 10
      · rw [pyStrNat_length_lt10 i hi, pyStrNat_length_ge10 n (by omega)]
        omega
      · rw [pyStrNat_length_ge10 i (by omega), pyStrNat_length_ge10 n (by omega)]
        have hd : n / 10 < n := Nat.div_lt_self (by omega) (by omega)
        have := ih (n / 10) hd (i / 10) (Nat.div_le_div_right hin)
        omega

/-- Any integer in `[0, 24)` prints in at most two characters. -/
theorem pyStrInt_length_le_two (h : ℤ) (h0 : 0 ≤ h) (h24 : h < 24) :
    (pyStrInt h).length ≤ 2 := by
  obtain ⟨n, rfl⟩ := Int.eq_ofNat_of_zero_le h0
  show (pyStrNat n).length ≤ 2
  have hn : n < 24 := by exact_mod_cast h24
  by_cases hn10 : n < 10
  · rw [pyStrNat_length_lt10 n hn10]; omega
  · rw [pyStrNat_length_ge10 n (by omega), pyStrNat_length_lt10 (n / 10) (by omega)]

/-- Hours are always in `[0, 24)`. -/
theorem hoursOf_bounds (i : ℕ) : 0 ≤ hoursOf i ∧ hoursOf i < 24 :=
  ⟨Int.fmod_nonneg' (elapsedDisplay i) (by norm_num),
   Int.fmod_lt_of_pos (elapsedDisplay i) (by norm_num)⟩

/-- The hour field always renders exactly two characters wide. -/
theorem hourField_length (i : ℕ) : (hourField i 2).length = 2 := by
  unfold hourField
  rw [zfill_length]
  have h := hoursOf_bounds i
  have := pyStrInt_length_le_two (hoursOf i) h.1 h.2
  omega

/-- The day field rendered at the pad width `main` derives from the last
frame is always exactly that wide. -/
theorem dayField_length (i total : ℕ)
    (hle : (pyStrInt (daysOf i)).length ≤ pad_days_of total) :
    (dayField i (pad_days_of total)).length = pad_days_of total := by
  unfold dayField
  rw [zfill_length]
  omega

/-- `elapsedFloat` is the formula the spec states, in ordinary rational
arithmetic. -/
theorem elapsedFloat_eq (i : ℕ) : elapsedFloat i = ((i : ℚ) - 1) * HOURS_PER_FRAME := by
  unfold elapsedFloat
  rw [ratMul_eq, Rat.ofInt_eq_cast]
  push_cast
  ring

/-- `Rat.floor` agrees with the floor of the `FloorRing` instance. -/
theorem ratFloor_eq_intFloor (q : ℚ) : q.floor = ⌊q⌋ := by
  rw [Rat.floor_def', Rat.floor_def]

theorem floor_le_pyRound (q : ℚ) : q.floor ≤ pyRound q := by
  simp only [pyRound]
  split_ifs <;> omega

theorem pyRound_le_floor_add_one (q : ℚ) : pyRound q ≤ q.floor + 1 := by
  simp only [pyRound]
  split_ifs <;> omega

/-- The first branch condition of `pyRound` says the fractional part is
below one half. -/
theorem pyRound_cond1 (q : ℚ) :
    2 * (q.num - q.floor * (q.den : ℤ)) < (q.den : ℤ) ↔ q - (q.floor : ℚ) < 1 / 2 := by
  have hden0 : (0 : ℚ) < (q.den : ℚ) := by exact_mod_cast q.den_pos
  have hnum : (q.num : ℚ) = q * (q.den : ℚ) := by
    have h0 := Rat.num_div_den q
    rw [div_eq_iff (ne_of_gt hden0)] at h0
    exact h0
  constructor
  · intro h
    have h' : (2 : ℚ) * ((q.num : ℚ) - (q.floor : ℚ) * (q.den : ℚ)) < (q.den : ℚ) := by
      exact_mod_cast h
    rw [hnum] at h'
    have h2 : (2 * (q - (q.floor : ℚ))) * (q.den : ℚ) < 1 * (q.den : ℚ) := by
      rw [one_mul]
      linarith
    have h3 := (mul_lt_mul_right hden0).mp h2
    linarith
  · intro h
    have h3 : 2 * (q - (q.floor : ℚ)) < 1 := by linarith
    have h2 := (mul_lt_mul_right hden0).mpr h3
    have h' : (2 : ℚ) * ((q.num : ℚ) - (q.floor : ℚ) * (q.den : ℚ)) < (q.den : ℚ) := by
      rw [hnum]
      linarith
    exact_mod_cast h'

/-- The second branch condition of `pyRound` says the fractional part is
above one half. -/
theorem pyRound_cond2 (q : ℚ) :
    (q.den : ℤ) < 2 * (q.num - q.floor * (q.den : ℤ)) ↔ 1 / 2 < q - (q.floor : ℚ) := by
  have hden0 : (0 : ℚ) < (q.den : ℚ) := by exact_mod_cast q.den_pos
  have hnum : (q.num : ℚ) = q * (q.den : ℚ) := by
    have h0 := Rat.num_div_den q
    rw [div_eq_iff (ne_of_gt hden0)] at h0
    exact h0
  constructor
  · intro h
    have h' : (q.den : ℚ) < (2 : ℚ) * ((q.num : ℚ) - (q.floor : ℚ) * (q.den : ℚ)) := by
      exact_mod_cast h
    rw [hnum] at h'
    have h2 : 1 * (q.den : ℚ) < (2 * (q - (q.floor : ℚ))) * (q.den : ℚ) := by
      rw [one_mul]
      linarith
    have h3 := (mul_lt_mul_right hden0).mp h2
    linarith
  · intro h
    have h3 : 1 < 2 * (q - (q.floor : ℚ)) := by linarith
    have h2 := (mul_lt_mul_right hden0).mpr h3
    have h' : (q.den : ℚ) < (2 : ℚ) * ((q.num : ℚ) - (q.floor : ℚ) * (q.den : ℚ)) := by
      rw [hnum]
      linarith
    exact_mod_cast h'

/-- Python's banker's rounding is monotone. -/
theorem pyRound_mono {q q' : ℚ} (h : q ≤ q') : pyRound q ≤ pyRound q' := by
  have hf : q.floor ≤ q'.floor := by
    rw [ratFloor_eq_intFloor q, ratFloor_eq_intFloor q']
    exact Int.floor_le_floor h
  rcases lt_or_eq_of_le hf with hlt | heq
  · have h1 := pyRound_le_floor_add_one q
    have h2 := floor_le_pyRound q'
    omega
  · have hfr : q - (q.floor : ℚ) ≤ q' - (q.floor : ℚ) := sub_le_sub_right h _
    simp only [pyRound]
    simp only [pyRound_cond1, pyRound_cond2]
    simp only [← heq]
    split_ifs <;> first | omega | tauto | (exfalso; linarith)

/-- The displayed elapsed-hours value grows with the frame index. -/
theorem elapsedDisplay_mono {i j : ℕ} (h : i ≤ j) : elapsedDisplay i ≤ elapsedDisplay j := by
  unfold elapsedDisplay
  apply pyRound_mono
  rw [elapsedFloat_eq, elapsedFloat_eq]
  have hc : (i : ℚ) ≤ (j : ℚ) := by exact_mod_cast h
  have hh : (0 : ℚ) ≤ HOURS_PER_FRAME := by decide
  apply mul_le_mul_of_nonneg_right _ hh
  linarith

theorem elapsedDisplay_nonneg {i : ℕ} (h : 1 ≤ i) : 0 ≤ elapsedDisplay i := by
  have h0 : elapsedDisplay 1 = 0 := by decide
  have h1 := elapsedDisplay_mono h
  omega

theorem daysOf_nonneg {i : ℕ} (h : 1 ≤ i) : 0 ≤ daysOf i := by
  unfold daysOf
  rw [Int.fdiv_eq_ediv _ (by norm_num)]
  exact Int.ediv_nonneg (elapsedDisplay_nonneg h) (by norm_num)

theorem daysOf_mono {i j : ℕ} (h : i ≤ j) : daysOf i ≤ daysOf j := by
  unfold daysOf
  rw [Int.fdiv_eq_ediv _ (by norm_num), Int.fdiv_eq_ediv _ (by norm_num)]
  exact Int.ediv_le_ediv (by norm_num) (elapsedDisplay_mono h)

/-- Decimal digit count is monotone on nonnegative integers. -/
theorem pyStrInt_length_mono {a b : ℤ} (ha : 0 ≤ a) (hab : a ≤ b) :
    (pyStrInt a).length ≤ (pyStrInt b).length := by
  obtain ⟨n, rfl⟩ := Int.eq_ofNat_of_zero_le ha
  obtain ⟨m, rfl⟩ := Int.eq_ofNat_of_zero_le (le_trans ha hab)
  have hnm : n ≤ m := by exact_mod_cast hab
  exact pyStrNat_length_mono m n hnm

/-! ## Claims -/

/-- C1, counterexample: the claim derives the hour width from the digit
count of the last frame's hour remainder, but the script overwrites the
computed value with `pad_hours = 2` (line 287).  For a 100-frame run the
last frame's hour remainder is `1` (one digit), yet every rendered hour
field — frame 1's included — is two characters wide. -/
theorem C1_counterexample :
    pad_hours_claimed 100 = 1 ∧ pad_hours_of 100 = 2 ∧
    (hourField 1 (pad_hours_of 100)).length ≠ pad_hours_claimed 100 := by
  decide

/-- C1, amended: the day width is computed once from the digit count of the
last frame's day count; the hour width is the constant 2 (the computed
value is overwritten); every frame's day/hour fields are zero-padded to
exactly those widths, so frame 1's field widths equal the last frame's. -/
theorem C1_pad_stability (total i : ℕ) (h1 : 1 ≤ i) (h2 : i ≤ total) :
    pad_hours_of total = 2 ∧
    (dayField i (pad_days_of total)).length = pad_days_of total ∧
    (hourField i (pad_hours_of total)).length = 2 ∧
    (dayField 1 (pad_days_of total)).length = (dayField total (pad_days_of total)).length ∧
    (hourField 1 (pad_hours_of total)).length = (hourField total (pad_hours_of total)).length := by
  have h1t : 1 ≤ total := le_trans h1 h2
  have hday : ∀ k, 1 ≤ k → k ≤ total →
      (dayField k (pad_days_of total)).length = pad_days_of total := by
    intro k hk1 hk2
    apply dayField_length
    have hmono := pyStrInt_length_mono (daysOf_nonneg hk1) (daysOf_mono hk2)
    unfold pad_days_of
    omega
  refine ⟨rfl, hday i h1 h2, ?_, ?_, ?_⟩
  · show (hourField i 2).length = 2
    exact hourField_length i
  · rw [hday 1 le_rfl h1t, hday total h1t le_rfl]
  · show (hourField 1 2).length = (hourField total 2).length
    rw [hourField_length, hourField_length]

/-- C1 witness: frame 7 of a 100-frame run. -/
theorem C1_pad_stability_witness :
    pad_hours_of 100 = 2 ∧
    (dayField 7 (pad_days_of 100)).length = pad_days_of 100 ∧
    (hourField 7 (pad_hours_of 100)).length = 2 ∧
    (dayField 1 (pad_days_of 100)).length = (dayField 100 (pad_days_of 100)).length ∧
    (hourField 1 (pad_hours_of 100)).length = (hourField 100 (pad_hours_of 100)).length :=
  C1_pad_stability 100 7 (by decide) (by decide)

/-- C2: the elapsed-time label derivation — `elapsed_hours` is the
banker's rounding of `(frame_index - 1) * HOURS_PER_FRAME`, days/hours are
its floor-quotient and remainder by 24 — with the claimed instances at
`HOURS_PER_FRAME = 0.98`: frame 1 gives elapsed hours 0 (rendered
`"0 dd 00 hr"` inside the template), frame 100 gives
`round(97.02) = 97`, i.e. 4 days and 1 hour. -/
theorem C2_elapsed_time_derivation :
    (∀ i : ℕ, elapsedDisplay i = pyRound (((i : ℚ) - 1) * HOURS_PER_FRAME) ∧
      daysOf i = Int.fdiv (elapsedDisplay i) 24 ∧
      hoursOf i = Int.fmod (elapsedDisplay i) 24 ∧
      24 * daysOf i + hoursOf i = elapsedDisplay i ∧
      0 ≤ hoursOf i ∧ hoursOf i < 24) ∧
    elapsedDisplay 1 = 0 ∧ elapsedDisplay 100 = 97 ∧
    daysOf 100 = 4 ∧ hoursOf 100 = 1 ∧
    build_time_label 1 (pad_days_of 100) (pad_hours_of 100)
      = "Time Estimate (1.0 hr/frame): 0 dd 00 hr" ∧
    build_time_label 100 (pad_days_of 100) (pad_hours_of 100)
      = "Time Estimate (1.0 hr/frame): 4 dd 01 hr" := by
  constructor
  · intro i
    exact ⟨by rw [elapsedDisplay, elapsedFloat_eq], rfl, rfl,
      Int.fdiv_add_fmod (elapsedDisplay i) 24, (hoursOf_bounds i).1, (hoursOf_bounds i).2⟩
  · exact ⟨by decide, by decide, by decide, by decide, by decide, by decide⟩

theorem startsWithBang_bang (rest : String) : startsWithBang ("!" ++ rest) = true := by
  obtain ⟨l⟩ := rest; rfl

theorem pyTail_bang (rest : String) : pyTail ("!" ++ rest) = rest := by
  obtain ⟨l⟩ := rest; rfl

/-- C3: a line beginning with `"!"` is flagged big, its rendered text is the
resolution of the marker-stripped remainder (so the marker is gone from the
output), and it is rendered with the corner's big font, whose point size is
`int(round(base * BIG))` — `75` for base `50`; a line not beginning with the
marker keeps the base font. -/
theorem C3_emphasis_font (i n pd ph : ℕ) (base : ℤ) (t : String) :
    (startsWithBang t = true →
      (processLabelLine i n pd ph t).big = true ∧
      (processLabelLine i n pd ph t).text = resolveText i n pd ph (pyLstrip (pyTail t)) ∧
      fontSizeFor base (processLabelLine i n pd ph t) = bigFontSize base) ∧
    (startsWithBang t = false →
      (processLabelLine i n pd ph t).big = false ∧
      (processLabelLine i n pd ph t).text = resolveText i n pd ph t ∧
      fontSizeFor base (processLabelLine i n pd ph t) = base) ∧
    bigFontSize 50 = 75 := by
  refine ⟨?_, ?_, by decide⟩ <;> intro h <;>
    simp [processLabelLine, fontSizeFor, h]

/-- C3 witness: the script's own top-left label lines at frame 1 of 100. -/
theorem C3_emphasis_font_witness :
    (processLabelLine 1 100 1 2 "!ECDOsim v11: S1 -> S2").big = true ∧
    (processLabelLine 1 100 1 2 "!ECDOsim v11: S1 -> S2").text
      = resolveText 1 100 1 2 (pyLstrip (pyTail "!ECDOsim v11: S1 -> S2")) ∧
    fontSizeFor 50 (processLabelLine 1 100 1 2 "!ECDOsim v11: S1 -> S2") = bigFontSize 50 ∧
    (processLabelLine 1 100 1 2 "Particle Velocity View").big = false ∧
    fontSizeFor 50 (processLabelLine 1 100 1 2 "Particle Velocity View") = 50 := by
  have hb := (C3_emphasis_font 1 100 1 2 50 "!ECDOsim v11: S1 -> S2").1 (by decide)
  have hn := ((C3_emphasis_font 1 100 1 2 50 "Particle Velocity View").2).1 (by decide)
  exact ⟨hb.1, hb.2.1, hb.2.2, hn.1, hn.2.2⟩

/-- C10: after a leading `"!"`, the marker and all whitespace immediately
following it are removed before the sentinel comparison; the sentinel fires
exactly when the remainder equals `"TIME"`, producing the elapsed-time
label flagged big; any other remainder receives ordinary token
substitution. -/
theorem C10_sentinel_after_marker (i n pd ph : ℕ) (rest : String) :
    (pyLstrip rest = "TIME" →
      processLabelLine i n pd ph ("!" ++ rest) = ⟨build_time_label i pd ph, true⟩) ∧
    (pyLstrip rest ≠ "TIME" →
      processLabelLine i n pd ph ("!" ++ rest) = ⟨replace_tokens i n (pyLstrip rest), true⟩) := by
  constructor <;> intro h <;>
    simp [processLabelLine, startsWithBang_bang, pyTail_bang, resolveText, h]

/-- C10 witness: `"!TIME"` and `"! TIME"` both become the enlarged
elapsed-time label; `"!TIMES"` does not fire the sentinel. -/
theorem C10_sentinel_after_marker_witness :
    processLabelLine 1 100 1 2 ("!" ++ "TIME") = ⟨build_time_label 1 1 2, true⟩ ∧
    processLabelLine 1 100 1 2 ("!" ++ " TIME") = ⟨build_time_label 1 1 2, true⟩ ∧
    processLabelLine 1 100 1 2 ("!" ++ "TIMES") = ⟨replace_tokens 1 100 "TIMES", true⟩ := by
  refine ⟨(C10_sentinel_after_marker 1 100 1 2 "TIME").1 (by decide),
    (C10_sentinel_after_marker 1 100 1 2 " TIME").1 (by decide), ?_⟩
  have h := (C10_sentinel_after_marker 1 100 1 2 "TIMES").2 (by decide)
  exact h.trans (by decide)

theorem drawColumnLeft_head (cfg : CornerCfg) (sp x y : ℤ) (item : RenderedLine)
    (rest : List RenderedLine) :
    (drawColumnLeft cfg sp x y (item :: rest)).head?
      = some ⟨x, y, item.text, fontFor cfg item⟩ := rfl

theorem drawColumnRight_head (cfg : CornerCfg) (sp W y : ℤ) (item : RenderedLine)
    (rest : List RenderedLine) :
    (drawColumnRight cfg sp W y (item :: rest)).head?
      = some ⟨W - (fontFor cfg item).width item.text - cfg.offset_x, y, item.text,
          fontFor cfg item⟩ := rfl

/-- The stacked-height pre-pass computes `sum of heights + spacing * (n-1)`. -/
theorem stackedHeightOf_sum (sp : ℤ) :
    ∀ (hs : List ℤ), hs ≠ [] →
      stackedHeightOf sp hs = hs.sum + sp * ((hs.length : ℤ) - 1) := by
  intro hs
  induction hs with
  | nil => intro h; exact absurd rfl h
  | cons h0 rest ih =>
    intro _
    cases rest with
    | nil => simp [stackedHeightOf]
    | cons h2 rest2 =>
      have hr := ih (by simp)
      simp only [stackedHeightOf] at hr ⊢
      rw [hr]
      simp only [List.sum_cons, List.length_cons]
      push_cast
      ring

/-- Walking a left-aligned column: the bottom edge lands `stackedHeightOf`
below the starting cursor. -/
theorem drawColumnLeft_bottomEdge (cfg : CornerCfg) (sp x : ℤ) :
    ∀ (lines : List RenderedLine) (y : ℤ), lines ≠ [] →
      bottomEdge (drawColumnLeft cfg sp x y lines)
        = some (y + stackedHeightOf sp (lines.map fun it => (fontFor cfg it).height)) := by
  intro lines
  induction lines with
  | nil => intro y h; exact absurd rfl h
  | cons item rest ih =>
    intro y _
    cases rest with
    | nil =>
      show bottomEdge [⟨x, y, item.text, fontFor cfg item⟩] = _
      simp [bottomEdge, stackedHeightOf]
    | cons item2 rest2 =>
      have ih2 := ih (y + (fontFor cfg item).height + sp) (by simp)
      show bottomEdge (⟨x, y, item.text, fontFor cfg item⟩ ::
          drawColumnLeft cfg sp x (y + (fontFor cfg item).height + sp) (item2 :: rest2)) = _
      unfold bottomEdge at ih2 ⊢
      rw [show drawColumnLeft cfg sp x (y + (fontFor cfg item).height + sp) (item2 :: rest2)
            = ⟨x, y + (fontFor cfg item).height + sp, item2.text, fontFor cfg item2⟩ ::
              drawColumnLeft cfg sp x
                (y + (fontFor cfg item).height + sp + (fontFor cfg item2).height + sp) rest2
            from rfl] at ih2 ⊢
      rw [List.getLast?_cons_cons, ih2]
      simp only [List.map_cons, stackedHeightOf, Option.some.injEq]
      ring

/-- Walking a right-aligned column: same vertical behaviour. -/
theorem drawColumnRight_bottomEdge (cfg : CornerCfg) (sp W : ℤ) :
    ∀ (lines : List RenderedLine) (y : ℤ), lines ≠ [] →
      bottomEdge (drawColumnRight cfg sp W y lines)
        = some (y + stackedHeightOf sp (lines.map fun it => (fontFor cfg it).height)) := by
  intro lines
  induction lines with
  | nil => intro y h; exact absurd rfl h
  | cons item rest ih =>
    intro y _
    cases rest with
    | nil =>
      show bottomEdge [⟨W - (fontFor cfg item).width item.text - cfg.offset_x, y,
        item.text, fontFor cfg item⟩] = _
      simp [bottomEdge, stackedHeightOf]
    | cons item2 rest2 =>
      have ih2 := ih (y + (fontFor cfg item).height + sp) (by simp)
      show bottomEdge (⟨W - (fontFor cfg item).width item.text - cfg.offset_x, y,
          item.text, fontFor cfg item⟩ ::
          drawColumnRight cfg sp W (y + (fontFor cfg item).height + sp) (item2 :: rest2)) = _
      unfold bottomEdge at ih2 ⊢
      rw [show drawColumnRight cfg sp W (y + (fontFor cfg item).height + sp) (item2 :: rest2)
            = ⟨W - (fontFor cfg item2).width item2.text - cfg.offset_x,
                y + (fontFor cfg item).height + sp, item2.text, fontFor cfg item2⟩ ::
              drawColumnRight cfg sp W
                (y + (fontFor cfg item).height + sp + (fontFor cfg item2).height + sp) rest2
            from rfl] at ih2 ⊢
      rw [List.getLast?_cons_cons, ih2]
      simp only [List.map_cons, stackedHeightOf, Option.some.injEq]
      ring

/-- C4: a bottom-anchored corner block first computes its total stacked
height (each line's own font height plus spacing between consecutive
lines), places the first line at `H - offset_y - total_height`, and the
block's bottom edge lands exactly `offset_y` above the image's bottom edge
— for the bottom-left and the bottom-right corner alike, with mixed
per-line fonts. -/
theorem C4_bottom_anchoring (W H sp : ℤ) (cfg : CornerCfg) (hne : cfg.lines ≠ []) :
    stackedHeight sp cfg = (heightsOf cfg).sum + sp * (((heightsOf cfg).length : ℤ) - 1) ∧
    (blDraws H sp cfg).head?.map DrawCall.y = some (H - cfg.offset_y - stackedHeight sp cfg) ∧
    bottomEdge (blDraws H sp cfg) = some (H - cfg.offset_y) ∧
    (brDraws W H sp cfg).head?.map DrawCall.y = some (H - cfg.offset_y - stackedHeight sp cfg) ∧
    bottomEdge (brDraws W H sp cfg) = some (H - cfg.offset_y) := by
  have hlen : heightsOf cfg ≠ [] := by
    unfold heightsOf
    simp [hne]
  obtain ⟨item, rest, hcons⟩ : ∃ item rest, cfg.lines = item :: rest := by
    cases hl : cfg.lines with
    | nil => exact absurd hl hne
    | cons a b => exact ⟨a, b, rfl⟩
  refine ⟨stackedHeightOf_sum sp (heightsOf cfg) hlen, ?_, ?_, ?_, ?_⟩
  · unfold blDraws
    rw [hcons, drawColumnLeft_head]
    rfl
  · unfold blDraws
    rw [drawColumnLeft_bottomEdge cfg sp cfg.offset_x cfg.lines _ hne]
    show some (H - cfg.offset_y - stackedHeight sp cfg + stackedHeight sp cfg) = _
    congr 1
    ring
  · unfold brDraws
    rw [hcons, drawColumnRight_head]
    rfl
  · unfold brDraws
    rw [drawColumnRight_bottomEdge cfg sp W cfg.lines _ hne]
    show some (H - cfg.offset_y - stackedHeight sp cfg + stackedHeight sp cfg) = _
    congr 1
    ring

/-- C4 witness: a two-line block (base height 10, big height 15, spacing 1)
on a 200x100 image with `offset_y = 10`: total height 26, first line at
`y = 64`, bottom edge at `90 = 100 - 10` for both bottom corners. -/
theorem C4_bottom_anchoring_witness :
    stackedHeight 1 sampleCorner = 26 ∧
    (blDraws 100 1 sampleCorner).head?.map DrawCall.y = some 64 ∧
    bottomEdge (blDraws 100 1 sampleCorner) = some 90 ∧
    bottomEdge (brDraws 200 100 1 sampleCorner) = some 90 := by
  have h := C4_bottom_anchoring 200 100 1 sampleCorner (by decide)
  refine ⟨h.1.trans (by decide), ?_, h.2.2.1.trans (by decide), h.2.2.2.2.trans (by decide)⟩
  exact h.2.1.trans (by decide)

/-- Every draw call of a right-aligned column has
`x = W - measured_width - offset_x`. -/
theorem drawColumnRight_mem_x (cfg : CornerCfg) (sp W : ℤ) :
    ∀ (lines : List RenderedLine) (y : ℤ) (d : DrawCall),
      d ∈ drawColumnRight cfg sp W y lines →
      d.x = W - d.font.width d.text - cfg.offset_x := by
  intro lines
  induction lines with
  | nil => intro y d h; simp [drawColumnRight] at h
  | cons item rest ih =>
    intro y d h
    rw [show drawColumnRight cfg sp W y (item :: rest)
          = ⟨W - (fontFor cfg item).width item.text - cfg.offset_x, y, item.text,
              fontFor cfg item⟩ ::
            drawColumnRight cfg sp W (y + (fontFor cfg item).height + sp) rest
          from rfl] at h
    rcases List.mem_cons.mp h with h1 | h2
    · rw [h1]
    · exact ih _ d h2

/-- C5: for every right-anchored line, the draw x-coordinate is
`W - measured_width - offset_x`, so the measured right edge equals
`W - offset_x` exactly — and hence never exceeds it — for the top-right
and the bottom-right corner alike. -/
theorem C5_right_edge (W H sp : ℤ) (cfg : CornerCfg) :
    (∀ d ∈ trDraws W sp cfg, d.x = W - d.font.width d.text - cfg.offset_x ∧
      d.x + d.font.width d.text = W - cfg.offset_x ∧
      d.x + d.font.width d.text ≤ W - cfg.offset_x) ∧
    (∀ d ∈ brDraws W H sp cfg, d.x = W - d.font.width d.text - cfg.offset_x ∧
      d.x + d.font.width d.text = W - cfg.offset_x ∧
      d.x + d.font.width d.text ≤ W - cfg.offset_x) := by
  constructor
  · intro d hd
    have hx := drawColumnRight_mem_x cfg sp W cfg.lines cfg.offset_y d hd
    exact ⟨hx, by omega, by omega⟩
  · intro d hd
    have hx := drawColumnRight_mem_x cfg sp W cfg.lines
      (H - cfg.offset_y - stackedHeight sp cfg) d hd
    exact ⟨hx, by omega, by omega⟩

/-- C5 witness: on a 200-wide image with `offset_x = 15`, the first
top-right and bottom-right draw calls have measured right edge exactly
`185 = 200 - 15`. -/
theorem C5_right_edge_witness :
    (∃ d, d ∈ trDraws 200 1 sampleCorner ∧ d.x + d.font.width d.text = 185) ∧
    (∃ d, d ∈ brDraws 200 100 1 sampleCorner ∧ d.x + d.font.width d.text = 185) := by
  constructor
  · have hm : (⟨183, 10, "ab", sampleFont⟩ : DrawCall) ∈ trDraws 200 1 sampleCorner :=
      List.Mem.head _
    exact ⟨_, hm, (((C5_right_edge 200 100 1 sampleCorner).1 _ hm).2.1).trans (by decide)⟩
  · have hm : (⟨183, 64, "ab", sampleFont⟩ : DrawCall) ∈ brDraws 200 100 1 sampleCorner :=
      List.Mem.head _
    exact ⟨_, hm, (((C5_right_edge 200 100 1 sampleCorner).2 _ hm).2.1).trans (by decide)⟩

/-- C6: with `N` matching images, frame `i`'s token substitution is `i`
zero-padded to the decimal digit count of `N` — so its rendered width is
exactly `len(str(N))` for every `1 ≤ i ≤ N`. -/
theorem C6_frame_token_padding (i N : ℕ) (_h1 : 1 ≤ i) (h2 : i ≤ N) :
    (frame_str i N).length = (pyStrNat N).length := by
  unfold frame_str pad_width_of
  rw [zfill_length]
  have := pyStrNat_length_mono N i h2
  omega

/-- C6 witness: frame 7 of a 120-frame sequence renders as `"007"`, and the
token in the script's own top-right template is substituted with it. -/
theorem C6_frame_token_padding_witness :
    (1 : ℕ) ≤ 7 ∧ 7 ≤ 120 ∧ (frame_str 7 120).length = (pyStrNat 120).length ∧
    frame_str 7 120 = "007" ∧
    replace_tokens 7 120 "Frame `/^" = "Frame 007/120" :=
  ⟨by decide, by decide, C6_frame_token_padding 7 120 (by decide) (by decide),
    by decide, by decide⟩

/-- C7: a missing or non-directory input exits with code 1 and a one-line
diagnostic (no output directory); a valid directory with zero PNGs exits
with code 0 and an informational message, the (empty) output directory
having been created. -/
theorem C7_preflight_exits (d : InputDir) :
    (d.present = false ∨ d.isDir = false →
      preflight d = .exits 1 ("[error] \x22" ++ d.name ++ "\x22 is not a directory.") false) ∧
    (d.present = true → d.isDir = true → d.pngs = [] →
      preflight d = .exits 0 "[info] No PNGs found." true) := by
  constructor
  · intro h
    have hc : ¬ (d.present = true ∧ d.isDir = true) := by
      rcases h with h | h <;> simp [h]
    simp [preflight, hc]
  · intro hp hd hpn
    simp [preflight, hp, hd, hpn]

/-- C7 witness: both exit paths at concrete inputs. -/
theorem C7_preflight_exits_witness :
    preflight ⟨"frames", false, false, []⟩
      = .exits 1 "[error] \x22frames\x22 is not a directory." false ∧
    preflight ⟨"frames", true, true, []⟩
      = .exits 0 "[info] No PNGs found." true := by
  refine ⟨?_, (C7_preflight_exits ⟨"frames", true, true, []⟩).2 rfl rfl rfl⟩
  exact ((C7_preflight_exits ⟨"frames", false, false, []⟩).1 (Or.inl rfl)).trans (by decide)

theorem runBatch_length (ok : String → Bool) (total : ℕ) :
    ∀ (files : List String) (start : ℕ),
      (runBatch ok total start files).length = files.length := by
  intro files
  induction files with
  | nil => intro start; rfl
  | cons a rest ih => intro start; simp [runBatch, ih]

theorem runBatch_getElem (ok : String → Bool) (total : ℕ) :
    ∀ (files : List String) (start k : ℕ) (f : String),
      files[k]? = some f →
      (runBatch ok total start files)[k]?
        = some (start + k, processOne ok (start + k) total f) := by
  intro files
  induction files with
  | nil => intro start k f h; simp at h
  | cons a rest ih =>
    intro start k f h
    cases k with
    | zero =>
      simp at h
      subst h
      simp [runBatch]
    | succ k =>
      rw [List.getElem?_cons_succ] at h
      have h2 := ih (start + 1) k f h
      have harith : start + 1 + k = start + (k + 1) := by omega
      simp only [runBatch, List.getElem?_cons_succ]
      rw [h2, harith]

/-- C8: every file in the batch gets exactly one iteration in order; a file
the imaging library rejects yields the one-line diagnostic for that file
only, and every other file is still processed — no abort, no retry. -/
theorem C8_per_file_isolation (ok : String → Bool) (total : ℕ) (files : List String) :
    (runBatch ok total 1 files).length = files.length ∧
    (∀ k f, files[k]? = some f →
      (runBatch ok total 1 files)[k]? = some (k + 1, processOne ok (k + 1) total f)) ∧
    (∀ k f, files[k]? = some f → ok f = false →
      (runBatch ok total 1 files)[k]?
        = some (k + 1, Except.error ("[error] Failed on " ++ f))) := by
  refine ⟨runBatch_length ok total files 1, ?_, ?_⟩
  · intro k f h
    have h2 := runBatch_getElem ok total files 1 k f h
    rwa [Nat.add_comm 1 k] at h2
  · intro k f h hf
    have h2 := runBatch_getElem ok total files 1 k f h
    rw [Nat.add_comm 1 k] at h2
    rw [h2]
    simp [processOne, hf]

/-- C8 witness: three files, the middle one failing — three ordered
iterations, an error entry for the middle file, the last file still
processed. -/
theorem C8_per_file_isolation_witness :
    (runBatch (fun s => s != "b.png") 3 1 ["a.png", "b.png", "c.png"]).length = 3 ∧
    (runBatch (fun s => s != "b.png") 3 1 ["a.png", "b.png", "c.png"])[1]?
      = some (2, Except.error "[error] Failed on b.png") ∧
    (runBatch (fun s => s != "b.png") 3 1 ["a.png", "b.png", "c.png"])[2]?
      = some (3, Except.ok "[3/3] c.png") := by
  have h := C8_per_file_isolation (fun s => s != "b.png") 3 ["a.png", "b.png", "c.png"]
  refine ⟨h.1, ?_, ?_⟩
  · exact (h.2.2 1 "b.png" (by decide) (by decide)).trans rfl
  · exact (h.2.1 2 "c.png" (by decide)).trans rfl

/-- C9, counterexample: with two files of which one fails, only one file is
written, yet the final summary still reports `2` — the total, not the count
actually written. -/
theorem C9_counterexample :
    writtenCount (runBatch (fun s => s != "b.png") 2 1 ["a.png", "b.png"]) = 1 ∧
    summaryLine 2 "frames-overlay" = "[done] Wrote 2 files to frames-overlay" ∧
    summaryLine 2 "frames-overlay"
      ≠ summaryLine (writtenCount (runBatch (fun s => s != "b.png") 2 1 ["a.png", "b.png"]))
          "frames-overlay" := by
  decide

theorem writtenCount_all_ok (ok : String → Bool) (total : ℕ) :
    ∀ (files : List String) (start : ℕ), (∀ f ∈ files, ok f = true) →
      writtenCount (runBatch ok total start files) = files.length := by
  intro files
  induction files with
  | nil => intro start _; rfl
  | cons a rest ih =>
    intro start h
    have ha : ok a = true := h a (by simp)
    have hr := ih (start + 1) (fun f hf => h f (by simp [hf]))
    unfold writtenCount at hr ⊢
    simp [runBatch, processOne, ha, List.countP_cons, hr]

/-- A failing file strictly lowers the written count below the total. -/
theorem writtenCount_lt_of_fail (ok : String → Bool) (total : ℕ) :
    ∀ (files : List String) (start : ℕ) (f : String), f ∈ files → ok f = false →
      writtenCount (runBatch ok total start files) < files.length := by
  intro files
  induction files with
  | nil => intro start f hf _; simp at hf
  | cons a rest ih =>
    intro start f hf hfail
    unfold writtenCount
    simp only [runBatch, List.countP_cons, List.length_cons]
    rcases List.mem_cons.mp hf with rfl | hmem
    · have hle : (runBatch ok total (start + 1) rest).countP
          (fun r => match r.2 with | .ok _ => true | .error _ => false)
          ≤ (runBatch ok total (start + 1) rest).length := List.countP_le_length _
      rw [runBatch_length] at hle
      simp [processOne, hfail]
      omega
    · have hlt := ih (start + 1) f hmem hfail
      unfold writtenCount at hlt
      split <;> omega

/-- C9, amended: the final summary line reports the total number of matched
input files (the number of attempted iterations) and the destination
directory; it equals the count of files actually written exactly when no
per-file error occurred. -/
theorem C9_amended_summary (ok : String → Bool) (files : List String) (out : String) :
    summaryLine files.length out
      = summaryLine (runBatch ok files.length 1 files).length out ∧
    (writtenCount (runBatch ok files.length 1 files) = files.length ↔
      ∀ f ∈ files, ok f = true) := by
  constructor
  · rw [runBatch_length]
  · constructor
    · intro hcount
      by_contra hnot
      push_neg at hnot
      obtain ⟨f, hmem, hf⟩ := hnot
      have hfail : ok f = false := by
        cases hok : ok f with
        | true => exact absurd hok hf
        | false => rfl
      have hlt := writtenCount_lt_of_fail ok files.length files 1 f hmem hfail
      omega
    · intro h
      exact writtenCount_all_ok ok files.length files 1 h

/-- C9 witness: an all-successful two-file batch, where the reported total
coincides with the written count — and a batch with one failing file, where
it does not. -/
theorem C9_amended_summary_witness :
    summaryLine 2 "frames-overlay"
      = summaryLine (runBatch (fun _ => true) 2 1 ["a.png", "b.png"]).length "frames-overlay" ∧
    writtenCount (runBatch (fun _ => true) 2 1 ["a.png", "b.png"]) = 2 ∧
    writtenCount (runBatch (fun s => s != "b.png") 2 1 ["a.png", "b.png"]) ≠ 2 := by
  have hall := C9_amended_summary (fun _ => true) ["a.png", "b.png"] "frames-overlay"
  have hfail := C9_amended_summary (fun s => s != "b.png") ["a.png", "b.png"] "frames-overlay"
  refine ⟨hall.1, hall.2.mpr (fun f _ => rfl), ?_⟩
  intro hc
  have hb := hfail.2.mp hc "b.png" (by simp)
  exact absurd hb (by decide)

end Script93
